import Mathlib

/-!
Verification of the pyAlluv layout engine.

Shallow embedding of the core data model and algorithms of the repository
(`pyalluv/clusters.py`, `pyalluv/fluxes.py`, `pyalluv/plotting.py`) over ℚ
(Python floats are modelled as exact rationals).  Each Python method that the
verified properties touch is translated into a Lean function of the same name;
mutable attributes become explicit record updates or threaded state.
-/

namespace PyAlluv

/-- The two vertical edges of a cluster where fluxes can attach
(the Python code uses the strings `'top'` and `'bottom'`). -/
inductive Loc where
  | top : Loc
  | bottom : Loc
deriving DecidableEq, Repr

/-- Embeds the geometric state of `Cluster` (clusters.py).  Only the fields the
layout algorithms read or write are kept: `x_pos`, `width`, `height`, `y_pos`.
The Python attribute `mid_height` is kept in sync with `y_pos` by
`set_y_pos`/`set_mid_height`; here it is the derived value
`y_pos + 0.5 * height` (see `Cluster.mid_height`). -/
structure Cluster where
  x_pos : ℚ
  width : ℚ
  height : ℚ
  y_pos : ℚ
deriving DecidableEq, Repr

/-- Invariant maintained by `set_y_pos` (clusters.py line 321):
`mid_height = y_pos + 0.5 * height`. -/
def Cluster.mid_height (c : Cluster) : ℚ := c.y_pos + c.height / 2

/-- Embeds `Cluster.set_y_pos` (clusters.py lines 318-326): sets `y_pos`
(and thereby `mid_height`). -/
def Cluster.set_y_pos (c : Cluster) (y : ℚ) : Cluster :=
  { c with y_pos := y }

/-- Embeds `Cluster.set_mid_height` (clusters.py lines 310-316):
`y_pos = mid_height - 0.5 * height`. -/
def Cluster.set_mid_height (c : Cluster) (m : ℚ) : Cluster :=
  { c with y_pos := m - c.height / 2 }

/-- Embeds the `in_` anchor dictionary set by `Cluster.set_in_out_anchors`
(clusters.py lines 335-338): `bottom ↦ (x_pos, y_pos)`,
`top ↦ (x_pos, y_pos + height)`. -/
def Cluster.in_ (c : Cluster) : Loc → ℚ × ℚ
  | Loc.bottom => (c.x_pos, c.y_pos)
  | Loc.top => (c.x_pos, c.y_pos + c.height)

/-- Embeds the `out_` anchor dictionary set by `Cluster.set_in_out_anchors`
(clusters.py lines 339-343): `top ↦ (x_pos + width, y_pos + height)`,
`bottom ↦ (x_pos + width, y_pos)`. -/
def Cluster.out_ (c : Cluster) : Loc → ℚ × ℚ
  | Loc.top => (c.x_pos + c.width, c.y_pos + c.height)
  | Loc.bottom => (c.x_pos + c.width, c.y_pos)

/-- Embeds `Flux` (fluxes.py).  Python attributes that `__init__` may leave
unassigned (`flux_width`) or that are only assigned later by the port
allocation (`in_loc`, `out_loc`, `anchor_in`, …) are modelled as `Option`
fields, `none` meaning "unset / None".  The endpoint clusters are held by
value (a snapshot of the referenced cluster's state). -/
structure Flux where
  flux : ℚ
  relative_flux : Bool
  source_cluster : Option Cluster
  target_cluster : Option Cluster
  out_flux_vanish : Loc
  flux_width : Option ℚ
  in_loc : Option Loc
  out_loc : Option Loc
  anchor_out : Option (ℚ × ℚ)
  top_out : Option (ℚ × ℚ)
  anchor_in : Option (ℚ × ℚ)
  top_in : Option (ℚ × ℚ)
deriving DecidableEq, Repr

/-- Embeds `Flux.__init__` (fluxes.py lines 51-94).  The body contains no
`raise`; the only conditional logic relevant to the data model is the
assignment of `flux_width`, which is skipped entirely when both
`source_cluster` and `target_cluster` are `None`.  The `Except` return type
records that the constructor has no error exit. -/
def flux_init (flux : ℚ) (source_cluster target_cluster : Option Cluster)
    (relative_flux : Bool) (out_flux_vanish : Loc) : Except String Flux :=
  let fw : Option ℚ :=
    match source_cluster with
    | some s => some (if relative_flux then flux * s.height else flux)
    | none =>
      match target_cluster with
      | some t => some (if relative_flux then flux * t.height else flux)
      | none => none
  Except.ok
    { flux := flux
      relative_flux := relative_flux
      source_cluster := source_cluster
      target_cluster := target_cluster
      out_flux_vanish := out_flux_vanish
      flux_width := fw
      in_loc := none
      out_loc := none
      anchor_out := none
      top_out := none
      anchor_in := none
      top_in := none }

/-- Embeds the `_dist` computation and the error exit of `Flux.get_patch`
(fluxes.py lines 176-190): with both locations set, `_dist` is 2/3 of the
horizontal gap between the target's in-bottom anchor and the source's
out-bottom anchor; with only `out_loc` set it is twice the source width; with
only `in_loc` set `_dist` stays `None`; with neither, the exception
`'Flux with neither source nor target cluster'` is raised.  (In the branches
that dereference an endpoint the Python code assumes it is present; a missing
endpoint is modelled by the default 0.) -/
def get_patch_dist (f : Flux) : Except String (Option ℚ) :=
  match f.out_loc with
  | some _ =>
    match f.in_loc with
    | some _ =>
      Except.ok (some ((2 / 3) *
        ((f.target_cluster.map (fun t => (t.in_ Loc.bottom).1)).getD 0 -
         (f.source_cluster.map (fun s => (s.out_ Loc.bottom).1)).getD 0)))
    | none => Except.ok (some (2 * (f.source_cluster.map Cluster.width).getD 0))
  | none =>
    match f.in_loc with
    | some _ => Except.ok none
    | none => Except.error "Flux with neither source nor target cluster"

/-- Embeds the body of the `for out_flux in self.out_fluxes` loop of
`Cluster.set_loc_out_fluxes` (clusters.py lines 158-188) for one flux.  The
local variables `in_loc` and `out_loc` start as `None`; when a target exists
they are set by the decision table; when no target exists the code assigns
`out_flux.out_loc = out_flux.out_flux_vanish` — and then the two unconditional
assignments at lines 187-188 overwrite `out_flux.in_loc` and
`out_flux.out_loc` with the locals (both still `None`). -/
def set_loc_out_flux (self : Cluster) (out_flux : Flux) : Flux :=
  match out_flux.target_cluster with
  | some t =>
    let locs : Option Loc × Option Loc :=
      if self.mid_height > t.mid_height then
        if self.mid_height ≥ (t.in_ Loc.top).2 then
          (some Loc.bottom, some Loc.top)
        else
          (some Loc.top, some Loc.top)
      else
        if self.mid_height ≤ (t.in_ Loc.bottom).2 then
          (some Loc.top, some Loc.bottom)
        else
          (some Loc.bottom, some Loc.bottom)
    { out_flux with in_loc := locs.2, out_loc := locs.1 }
  | none =>
    let f1 := { out_flux with out_loc := some out_flux.out_flux_vanish }
    { f1 with in_loc := none, out_loc := none }

/-- Embeds `Cluster.set_loc_out_fluxes` (clusters.py lines 158-188): the loop
over `self.out_fluxes`. -/
def set_loc_out_fluxes (self : Cluster) (out_fluxes : List Flux) : List Flux :=
  out_fluxes.map (set_loc_out_flux self)

/-- Convenience constructor for fluxes used in concrete evaluations: only the
fields relevant to port allocation are specified, the rest are unset. -/
def mkFlux (fw : Option ℚ) (src tgt : Option Cluster) (vanish : Loc)
    (il ol : Option Loc) : Flux :=
  { flux := fw.getD 0
    relative_flux := false
    source_cluster := src
    target_cluster := tgt
    out_flux_vanish := vanish
    flux_width := fw
    in_loc := il
    out_loc := ol
    anchor_out := none
    top_out := none
    anchor_in := none
    top_in := none }

/-- Concrete source cluster used to evaluate the code on the C7 failing
input. -/
def c7_source : Cluster := { x_pos := 0, width := 1, height := 2, y_pos := 0 }

/-- Concrete vanishing flux (source present, no target, default
`out_flux_vanish = 'top'`) used as failing input for C7. -/
def c7_flux : Flux := mkFlux (some 1) (some c7_source) none Loc.top none none

/-! ### Stable sorting (model of Python `sorted`)

Python's `sorted(..., key=k)` (and with `reverse=True`) is a stable sort by
key.  It is modelled by a stable insertion sort: `insert_by lt x l` places `x`
before the first element that does not strictly precede it under `lt`, so
elements comparing equal keep their original relative order, exactly as
CPython's sort does. -/

/-- Stable insertion: `lt a b = true` means `a` strictly precedes `b`. -/
def insert_by {α : Type} (lt : α → α → Bool) (x : α) : List α → List α
  | [] => [x]
  | y :: ys => if lt y x then y :: insert_by lt x ys else x :: y :: ys

/-- Stable insertion sort by the strict comparison `lt`. -/
def sort_by {α : Type} (lt : α → α → Bool) : List α → List α
  | [] => []
  | x :: xs => insert_by lt x (sort_by lt xs)

/-- The sort key of `Cluster.sort_out_fluxes` (clusters.py lines 202-208):
the target cluster's `mid_height`, or the literal sentinel `-10000` when the
flux has no target. -/
def out_sort_key (f : Flux) : ℚ :=
  match f.target_cluster with
  | some t => t.mid_height
  | none => -10000

/-- The sort key of `Cluster.sort_in_fluxes` (clusters.py lines 236-242):
the source cluster's `mid_height`, or `-10000` when the flux has no
source. -/
def in_sort_key (f : Flux) : ℚ :=
  match f.source_cluster with
  | some t => t.mid_height
  | none => -10000

/-- Embeds `Cluster.sort_out_fluxes` (clusters.py lines 190-222).  The Python
code pairs each flux with its index, splits the list into the fluxes with
`out_loc == 'top'` and those with `out_loc == 'bottom'`, stable-sorts the top
part by key descending (`reverse=True`) and the bottom part by key ascending,
and reassigns `self.out_fluxes` to the concatenation (fluxes whose `out_loc`
is neither — e.g. `None` — are dropped). -/
def sort_out_fluxes (out_fluxes : List Flux) : List Flux :=
  sort_by (fun a b => decide (out_sort_key b < out_sort_key a))
    (out_fluxes.filter (fun f => f.out_loc = some Loc.top)) ++
  sort_by (fun a b => decide (out_sort_key a < out_sort_key b))
    (out_fluxes.filter (fun f => f.out_loc = some Loc.bottom))

/-- Embeds `Cluster.sort_in_fluxes` (clusters.py lines 224-256), the mirror
of `sort_out_fluxes` on the entry side, keyed by the source cluster's
mid-height. -/
def sort_in_fluxes (in_fluxes : List Flux) : List Flux :=
  sort_by (fun a b => decide (in_sort_key b < in_sort_key a))
    (in_fluxes.filter (fun f => f.in_loc = some Loc.top)) ++
  sort_by (fun a b => decide (in_sort_key a < in_sort_key b))
    (in_fluxes.filter (fun f => f.in_loc = some Loc.bottom))

/-- Modelled from the spec's words for claim C4: the counterpart mid-height
used for ordering, with a flux lacking a counterpart "treated as
mid-height = −∞" (here `⊥` in `WithBot ℚ`). -/
def spec_out_key (f : Flux) : WithBot ℚ :=
  match f.target_cluster with
  | some t => (t.mid_height : WithBot ℚ)
  | none => ⊥

/-! ### Port stacking (margins and anchor bands) -/

/-- The two running margin counters of one side of a cluster
(`in_margin` / `out_margin` in clusters.py lines 86-92, initialised to 0). -/
structure Margins where
  bottom : ℚ
  top : ℚ
deriving DecidableEq, Repr

/-- Dictionary read `margin[loc]`. -/
def Margins.get (m : Margins) : Loc → ℚ
  | Loc.bottom => m.bottom
  | Loc.top => m.top

/-- Dictionary update `margin[loc] += w`. -/
def Margins.add (m : Margins) (loc : Loc) (w : ℚ) : Margins :=
  match loc with
  | Loc.bottom => { m with bottom := m.bottom + w }
  | Loc.top => { m with top := m.top + w }

/-- Embeds `Cluster.get_loc_out_flux` (clusters.py lines 258-274): returns
`(anchor_out, top_out)` and the updated `out_margin`.  `flux_width` here is
the signed width passed by `set_anchor_out_fluxes`. -/
def get_loc_out_flux (self : Cluster) (m : Margins) (flux_width : ℚ)
    (out_loc : Loc) (in_loc : Option Loc) : ((ℚ × ℚ) × (ℚ × ℚ)) × Margins :=
  let anchor_out : ℚ × ℚ :=
    ((self.out_ out_loc).1,
     (self.out_ out_loc).2 + m.get out_loc +
       (if in_loc = some Loc.bottom then flux_width else 0))
  let top_out : ℚ × ℚ :=
    ((self.out_ out_loc).1,
     (self.out_ out_loc).2 + m.get out_loc +
       (if in_loc = some Loc.top then flux_width else 0))
  ((anchor_out, top_out), m.add out_loc flux_width)

/-- Embeds `Cluster.get_loc_in_flux` (clusters.py lines 292-308): the mirror
on the entry side, reading the `in_` anchors and `in_margin`, with the
'which corner gets the width' test on the counterpart's `out_loc`. -/
def get_loc_in_flux (self : Cluster) (m : Margins) (flux_width : ℚ)
    (out_loc : Option Loc) (in_loc : Loc) : ((ℚ × ℚ) × (ℚ × ℚ)) × Margins :=
  let anchor_in : ℚ × ℚ :=
    ((self.in_ in_loc).1,
     (self.in_ in_loc).2 + m.get in_loc +
       (if out_loc = some Loc.bottom then flux_width else 0))
  let top_in : ℚ × ℚ :=
    ((self.in_ in_loc).1,
     (self.in_ in_loc).2 + m.get in_loc +
       (if out_loc = some Loc.top then flux_width else 0))
  ((anchor_in, top_in), m.add in_loc flux_width)

/-- Embeds the loop of `Cluster.set_anchor_out_fluxes` (clusters.py lines
276-282) with the `out_margin` state threaded explicitly: for each flux the
signed width is `flux_width` if `out_loc == 'bottom'` else `-flux_width`,
and `get_loc_out_flux` assigns `anchor_out` / `top_out`.  A flux whose
`out_loc` is unset is left untouched (after `sort_out_fluxes` no such flux
remains in the list; the Python code would raise a `KeyError` on it). -/
def set_anchor_out_fluxes_go (self : Cluster) (m : Margins) :
    List Flux → List Flux
  | [] => []
  | f :: fs =>
    match f.out_loc with
    | some ol =>
      let w := f.flux_width.getD 0
      let out_width := if ol = Loc.bottom then w else -w
      let r := get_loc_out_flux self m out_width ol f.in_loc
      { f with anchor_out := some r.1.1, top_out := some r.1.2 } ::
        set_anchor_out_fluxes_go self r.2 fs
    | none => f :: set_anchor_out_fluxes_go self m fs

/-- Embeds `Cluster.set_anchor_out_fluxes` starting from the freshly reset
margins (clusters.py lines 90-92: both counters start at 0). -/
def set_anchor_out_fluxes (self : Cluster) (out_fluxes : List Flux) :
    List Flux :=
  set_anchor_out_fluxes_go self { bottom := 0, top := 0 } out_fluxes

/-- Embeds the loop of `Cluster.set_anchor_in_fluxes` (clusters.py lines
284-290) with the `in_margin` state threaded explicitly: the signed width is
`flux_width` if `in_loc == 'bottom'` else `-flux_width`, and
`get_loc_in_flux` assigns `anchor_in` / `top_in`. -/
def set_anchor_in_fluxes_go (self : Cluster) (m : Margins) :
    List Flux → List Flux
  | [] => []
  | f :: fs =>
    match f.in_loc with
    | some il =>
      let w := f.flux_width.getD 0
      let in_width := if il = Loc.bottom then w else -w
      let r := get_loc_in_flux self m in_width f.out_loc il
      { f with anchor_in := some r.1.1, top_in := some r.1.2 } ::
        set_anchor_in_fluxes_go self r.2 fs
    | none => f :: set_anchor_in_fluxes_go self m fs

/-- Embeds `Cluster.set_anchor_in_fluxes` starting from the freshly reset
margins. -/
def set_anchor_in_fluxes (self : Cluster) (in_fluxes : List Flux) :
    List Flux :=
  set_anchor_in_fluxes_go self { bottom := 0, top := 0 } in_fluxes

/-- The vertical band `(lo, hi)` bracketed by a flux's `anchor_out` and
`top_out` coordinates on the source side. -/
def out_band (f : Flux) : ℚ × ℚ :=
  (min ((f.anchor_out.getD (0, 0)).2) ((f.top_out.getD (0, 0)).2),
   max ((f.anchor_out.getD (0, 0)).2) ((f.top_out.getD (0, 0)).2))

/-- The vertical band `(lo, hi)` bracketed by a flux's `anchor_in` and
`top_in` coordinates on the target side. -/
def in_band (f : Flux) : ℚ × ℚ :=
  (min ((f.anchor_in.getD (0, 0)).2) ((f.top_in.getD (0, 0)).2),
   max ((f.anchor_in.getD (0, 0)).2) ((f.top_in.getD (0, 0)).2))

/-- Contiguous ascending stack of bands starting at `s`: each band starts
where the previous one ended, and is non-degenerate. -/
def AscFrom (s : ℚ) : List (ℚ × ℚ) → Prop
  | [] => True
  | b :: bs => b.1 = s ∧ b.1 < b.2 ∧ AscFrom b.2 bs

/-- Contiguous descending stack of bands starting at `s`: each band ends
where the previous one started. -/
def DescFrom (s : ℚ) : List (ℚ × ℚ) → Prop
  | [] => True
  | b :: bs => b.2 = s ∧ b.1 < b.2 ∧ DescFrom b.1 bs

/-! ### Column layout (plotting.py) -/

/-- Embeds the stacking loop of `AlluvialPlot._distribute_column`
(plotting.py lines 683-686): `displace` starts at `d` and each cluster is
placed at the running displacement, which then grows by
`height + cluster_w_spacing`. -/
def stack_clusters (spacing : ℚ) (d : ℚ) : List Cluster → List Cluster
  | [] => []
  | c :: cs => c.set_y_pos d :: stack_clusters spacing (d + c.height + spacing) cs

/-- Embeds the re-centering step of `AlluvialPlot._distribute_column`
(plotting.py lines 687-697): `low` is the first cluster's `y_pos`, `high`
the last cluster's top, and every cluster is shifted down by
`low + 0.5 * (high - low)`. -/
def recenter_column : List Cluster → List Cluster
  | [] => []
  | c0 :: rest =>
    let low := c0.y_pos
    let lastc := (c0 :: rest).getLast (List.cons_ne_nil c0 rest)
    let high := lastc.y_pos + lastc.height
    let cent_offset := low + (high - low) / 2
    (c0 :: rest).map (fun c => c.set_y_pos (c.y_pos - cent_offset))

/-- Embeds `AlluvialPlot._distribute_column` (plotting.py lines 682-697):
stack from 0, then re-center. -/
def distribute_column (spacing : ℚ) (col : List Cluster) : List Cluster :=
  recenter_column (stack_clusters spacing 0 col)

/-- Embeds one accepted adjacent swap (plotting.py lines 248-255, 391-397 and
399-408): for the adjacent pair `n1 = col[i]`, `n2 = col[i+1]`, the code runs
`n2.set_y_pos(n1.y_pos)`, then
`n1.set_y_pos(n2.y_pos + n2.height + spacing)` (reading `n2`'s fresh
`y_pos`), and exchanges the two list slots.  An out-of-range index leaves the
column unchanged. -/
def swap_step (spacing : ℚ) : List Cluster → ℕ → List Cluster
  | c1 :: c2 :: cs, 0 =>
    c2.set_y_pos c1.y_pos ::
      c1.set_y_pos (c1.y_pos + c2.height + spacing) :: cs
  | c :: cs, n + 1 => c :: swap_step spacing cs n
  | [], _ => []
  | [c], 0 => [c]

/-- One operation of the layout pass on a column: either a full re-stack
(`_distribute_column`, as performed by the relaxation and orphan-pull-in
steps and by the `y_fix` override) or an accepted adjacent swap at a given
position (as performed by the forward/backward swap sweeps). -/
inductive LayoutOp where
  | restack : LayoutOp
  | swap : ℕ → LayoutOp

/-- Applies one layout operation to a column. -/
def apply_op (spacing : ℚ) (col : List Cluster) : LayoutOp → List Cluster
  | LayoutOp.restack => distribute_column spacing col
  | LayoutOp.swap i => swap_step spacing col i

/-- The layout pass on one column, as the call sequence of
`AlluvialPlot.__init__` produces it: an initial `_distribute_column`
followed by any sequence of re-stacks and accepted adjacent swaps. -/
def run_layout (spacing : ℚ) (col : List Cluster) (ops : List LayoutOp) :
    List Cluster :=
  ops.foldl (apply_op spacing) (distribute_column spacing col)

/-- Contiguity of a column at the given spacing: each cluster starts exactly
at the previous cluster's top plus the spacing (plotting.py line 686). -/
def Contig (spacing : ℚ) (col : List Cluster) : Prop :=
  List.Chain' (fun a b => b.y_pos = a.y_pos + a.height + spacing) col

/-! ### Adjacent-swap acceptance (plotting.py `_swap_clusters`) -/

/-- The direction strings of `AlluvialPlot._swap_clusters`. -/
inductive Direction where
  | backwards : Direction
  | forwards : Direction
  | both : Direction
deriving DecidableEq, Repr

/-- The weight/absolute-difference pairs gathered by `_swap_clusters`
(plotting.py lines 471-493): incoming fluxes with a source for
`'backwards'`/`'both'`, outgoing fluxes with a target for
`'forwards'`/`'both'`, each contributing `(flux_width, |mid - counterpart
mid|)` with `mid` the evaluated mid-height of the block. -/
def dev_pairs (dir : Direction) (in_fluxes out_fluxes : List Flux)
    (mid : ℚ) : List (ℚ × ℚ) :=
  (if dir = Direction.both ∨ dir = Direction.backwards then
    in_fluxes.filterMap (fun f =>
      f.source_cluster.map (fun s =>
        (f.flux_width.getD 0, |mid - s.mid_height|)))
  else []) ++
  (if dir = Direction.both ∨ dir = Direction.forwards then
    out_fluxes.filterMap (fun f =>
      f.target_cluster.map (fun t =>
        (f.flux_width.getD 0, |mid - t.mid_height|)))
  else [])

/-- The flux-weight-weighted mean absolute deviation of one block at an
evaluated mid-height (plotting.py lines 494-498): `Σ wᵢ dᵢ / Σ wᵢ` when
`Σ wᵢ > 0`; a block with no positive weight contributes nothing (no entry is
put into the `squared_diff` dictionary). -/
def weighted_dev (dir : Direction) (in_fluxes out_fluxes : List Flux)
    (mid : ℚ) : ℚ :=
  let l := dev_pairs dir in_fluxes out_fluxes mid
  let w := (l.map Prod.fst).sum
  if w > 0 then (l.map (fun p => p.1 * p.2)).sum / w else 0

/-- The hypothetical mid-height of the lower block `n1` after the swap
(plotting.py lines 501-503): `n2.y_pos + n2.height + spacing +
0.5 * n1.height`. -/
def inv_mid_n1 (spacing : ℚ) (n1 n2 : Cluster) : ℚ :=
  n2.y_pos + n2.height + spacing + n1.height / 2

/-- The hypothetical mid-height of the upper block `n2` after the swap
(plotting.py line 504): `n1.y_pos + 0.5 * n2.height`. -/
def inv_mid_n2 (n1 n2 : Cluster) : ℚ :=
  n1.y_pos + n2.height / 2

/-- Embeds `AlluvialPlot._swap_clusters` (plotting.py lines 469-538): the
swap is accepted iff the summed weighted deviation at the current
mid-heights strictly exceeds the summed weighted deviation at the
hypothetical swapped mid-heights. -/
def swap_clusters (spacing : ℚ) (dir : Direction) (n1 n2 : Cluster)
    (in1 out1 in2 out2 : List Flux) : Bool :=
  let cur := weighted_dev dir in1 out1 n1.mid_height +
    weighted_dev dir in2 out2 n2.mid_height
  let inv := weighted_dev dir in1 out1 (inv_mid_n1 spacing n1 n2) +
    weighted_dev dir in2 out2 (inv_mid_n2 n1 n2)
  decide (cur > inv)

/-! ### Cross-column relaxation loop (plotting.py `distribute_clusters`) -/

/-- A column entry for the relaxation loop: a cluster together with its
`in_fluxes` list.  Endpoint clusters inside the fluxes are snapshots of the
already-finalised earlier columns. -/
def ColEntry : Type := Cluster × List Flux

/-- The `(flux_width, source mid_height)` pairs gathered from a cluster's
incoming fluxes (plotting.py lines 350-353): fluxes without a source are
skipped. -/
def in_weight_pos (fs : List Flux) : List (ℚ × ℚ) :=
  fs.filterMap (fun f =>
    f.source_cluster.map (fun s => (f.flux_width.getD 0, s.mid_height)))

/-- One cluster's repositioning inside a relaxation pass (plotting.py lines
354-361): if the summed incoming weight is positive, the mid-height is set to
the flux-weighted mean of the source mid-heights. -/
def reposition (p : ColEntry) : ColEntry :=
  let wp := in_weight_pos p.2
  let w := (wp.map Prod.fst).sum
  if w > 0 then
    (p.1.set_mid_height ((wp.map (fun x => x.1 * x.2)).sum / w), p.2)
  else p

/-- Whether some cluster of the column has positive summed incoming-flux
weight — exactly the condition under which a pass sets the `_redistribute`
flag (plotting.py lines 354-355).  It depends only on the flux lists, not on
any position, so it is invariant across passes. -/
def any_positive (col : List ColEntry) : Bool :=
  col.any (fun p => decide (((in_weight_pos p.2).map Prod.fst).sum > 0))

/-- Embeds Python's `bisect.bisect_left` on the (sorted, ascending) list of
the previous pass's mid-heights: the number of leading elements strictly
below `x`. -/
def bisect_left (l : List ℚ) (x : ℚ) : ℕ :=
  (l.takeWhile (fun y => decide (y < x))).length

/-- The re-ranking of a column inside a relaxation pass (plotting.py lines
362-379): each cluster is keyed by the `bisect_left` rank of its new
mid-height in the previous mid-height list, and the column is stable-sorted
by that rank (Python sorts `(index, key)` pairs by key, which is stable). -/
def resort (old_mids : List ℚ) (col : List ColEntry) : List ColEntry :=
  sort_by (fun a b =>
    decide (bisect_left old_mids a.1.mid_height <
      bisect_left old_mids b.1.mid_height)) col

/-- `_distribute_column` lifted to column entries (the flux lists ride along
with their clusters). -/
def distribute_column_entries (spacing : ℚ) (col : List ColEntry) :
    List ColEntry :=
  (distribute_column spacing (col.map Prod.fst)).zip (col.map Prod.snd)

/-- Embeds the `for _ in range(self._redistribute_vertically)` loop of
`AlluvialPlot.distribute_clusters` (plotting.py lines 344-386), returning the
final column and the number of passes executed.  Faithful to the source, the
`_redistribute` flag is initialised `False` once before the loop and is only
ever set (never cleared) inside it; when after the repositioning sweep the
flag is still `False` the loop `break`s. -/
def redistribute_loop (spacing : ℚ) :
    ℕ → Bool → List ℚ → List ColEntry → List ColEntry × ℕ
  | 0, _, _, col => (col, 0)
  | n + 1, flag, old_mids, col =>
    let col1 := col.map reposition
    let flag1 := flag || any_positive col
    if flag1 then
      let col2 := distribute_column_entries spacing (resort old_mids col1)
      let r := redistribute_loop spacing n flag1
        (col2.map (fun p => p.1.mid_height)) col2
      (r.1, r.2 + 1)
    else (col1, 1)

/-- The relaxation stage of `AlluvialPlot.distribute_clusters` for one
column: the loop starts with `_redistribute = False` and with
`old_mid_heights` read from the freshly distributed column (plotting.py
lines 341-345). -/
def distribute_clusters_relax (spacing : ℚ) (budget : ℕ)
    (col : List ColEntry) : List ColEntry × ℕ :=
  redistribute_loop spacing budget false
    (col.map (fun p => p.1.mid_height)) col

/-! ### Concrete inputs used by witnesses and counterexamples -/

/-- Source cluster for the C1 witness: `mid_height = 4`. -/
def c1_S : Cluster := { x_pos := 0, width := 1, height := 2, y_pos := 3 }

/-- Target cluster for the C1 witness: `mid_height = 1`, top-in anchor at
`y = 2`, bottom-in anchor at `y = 0`. -/
def c1_T : Cluster := { x_pos := 2, width := 1, height := 2, y_pos := 0 }

/-- Flux from `c1_S` to `c1_T` for the C1 witness. -/
def c1_f : Flux := mkFlux (some 1) (some c1_S) (some c1_T) Loc.top none none

/-- Source block for the C3 counterexample: height 0 at `y = 0`, so both out
anchors sit at `y = 0`. -/
def c3_self : Cluster := { x_pos := 0, width := 1, height := 0, y_pos := 0 }

/-- A width-1 flux leaving `c3_self` from the top edge (entering its target
at the bottom), used twice in the C3 counterexample. -/
def c3_f : Flux :=
  mkFlux (some 1) (some c3_self) none Loc.top (some Loc.bottom) (some Loc.top)

/-- Target cluster with `mid_height = 5` for the C4 counterexample. -/
def c4_t5 : Cluster := { x_pos := 2, width := 1, height := 2, y_pos := 4 }

/-- Target cluster with `mid_height = -20000` (below the `-10000` sentinel)
for the C4 counterexample. -/
def c4_tlow : Cluster := { x_pos := 2, width := 1, height := 2, y_pos := -20001 }

/-- Top-edge flux to `c4_t5` (first copy). -/
def c4_f1 : Flux := mkFlux (some 1) none (some c4_t5) Loc.top none (some Loc.top)

/-- Top-edge flux to `c4_t5` (second copy, tied key). -/
def c4_f2 : Flux := mkFlux (some 2) none (some c4_t5) Loc.top none (some Loc.top)

/-- Top-edge flux with no target (sentinel key `-10000`). -/
def c4_f3 : Flux := mkFlux (some 1) none none Loc.top none (some Loc.top)

/-- Top-edge flux to `c4_tlow` (key `-20000`, below the sentinel). -/
def c4_f4 : Flux := mkFlux (some 1) none (some c4_tlow) Loc.top none (some Loc.top)

/-- Lower block for the C5 witness (`mid_height = 1/2`). -/
def c5_n1 : Cluster := { x_pos := 0, width := 1, height := 1, y_pos := 0 }

/-- Upper block for the C5 witness (`mid_height = 5/2`). -/
def c5_n2 : Cluster := { x_pos := 0, width := 1, height := 1, y_pos := 2 }

/-- A source block at `mid_height = 5/2` feeding the C5 witness's lower
block. -/
def c5_src : Cluster := { x_pos := -2, width := 1, height := 1, y_pos := 2 }

/-- Incoming flux of the C5 witness's lower block. -/
def c5_in1 : Flux := mkFlux (some 1) (some c5_src) (some c5_n1) Loc.top none none

/-! ## Theorems -/

/-- C1: for every flux with a source block `S` and a target block `T`, the
port-allocation step assigns exit/entry edges exactly by the decision table:
if `S.mid_height > T.mid_height` then (exit=bottom, enter=top) when
`S.mid_height ≥` the y-coordinate of `T`'s top-in anchor, else (exit=top,
enter=top); if `S.mid_height ≤ T.mid_height` then (exit=top, enter=bottom)
when `S.mid_height ≤` the y-coordinate of `T`'s bottom-in anchor, else
(exit=bottom, enter=bottom). -/
theorem C1_port_decision_table (S T : Cluster) (f : Flux)
    (h : f.target_cluster = some T) :
    (set_loc_out_flux S f).out_loc =
      some (if S.mid_height > T.mid_height then
              (if S.mid_height ≥ (T.in_ Loc.top).2 then Loc.bottom else Loc.top)
            else
              (if S.mid_height ≤ (T.in_ Loc.bottom).2 then Loc.top
               else Loc.bottom)) ∧
    (set_loc_out_flux S f).in_loc =
      some (if S.mid_height > T.mid_height then Loc.top else Loc.bottom) := by
  simp only [set_loc_out_flux, h]
  split_ifs <;> simp

/-- Witness for C1 at a concrete input: `S.mid_height = 4 > 1 = T.mid_height`
and `4 ≥ 2` (top-in anchor), so exit=bottom, enter=top. -/
theorem C1_port_decision_table_witness :
    (set_loc_out_flux c1_S c1_f).out_loc = some Loc.bottom ∧
    (set_loc_out_flux c1_S c1_f).in_loc = some Loc.top := by
  have h := C1_port_decision_table c1_S c1_T c1_f rfl
  norm_num [c1_S, c1_T, Cluster.mid_height, Cluster.in_] at h
  exact h

/-- C5: the adjacent-swap step accepts the swap iff the flux-weight-weighted
mean absolute deviation summed over the two blocks, evaluated at the
hypothetical swapped mid-heights, is strictly smaller than at the current
mid-heights. -/
theorem C5_swap_acceptance (spacing : ℚ) (dir : Direction) (n1 n2 : Cluster)
    (in1 out1 in2 out2 : List Flux) (_h : n1.y_pos < n2.y_pos) :
    swap_clusters spacing dir n1 n2 in1 out1 in2 out2 = true ↔
      weighted_dev dir in1 out1 (inv_mid_n1 spacing n1 n2) +
        weighted_dev dir in2 out2 (inv_mid_n2 n1 n2) <
      weighted_dev dir in1 out1 n1.mid_height +
        weighted_dev dir in2 out2 n2.mid_height := by
  simp [swap_clusters, gt_iff_lt]

/-- Witness for C5 at a concrete input (one weighted incoming flux on the
lower block, none on the upper). -/
theorem C5_swap_acceptance_witness :
    swap_clusters 1 Direction.backwards c5_n1 c5_n2 [c5_in1] [] [] [] = true ↔
      weighted_dev Direction.backwards [c5_in1] []
          (inv_mid_n1 1 c5_n1 c5_n2) +
        weighted_dev Direction.backwards [] [] (inv_mid_n2 c5_n1 c5_n2) <
      weighted_dev Direction.backwards [c5_in1] [] c5_n1.mid_height +
        weighted_dev Direction.backwards [] [] c5_n2.mid_height :=
  C5_swap_acceptance 1 Direction.backwards c5_n1 c5_n2 [c5_in1] [] [] []
    (by norm_num [c5_n1, c5_n2])

/-- C7: the claim says a flux with a source but no target keeps the
configurable default exit edge (`out_flux_vanish`, default `'top'`).  The
code does assign `out_flux.out_loc = out_flux.out_flux_vanish` in the
no-target branch, but the two unconditional assignments that close the loop
body (clusters.py lines 187-188) immediately overwrite `out_loc` with the
local variable, which is still `None`.  Evaluated at the failing input (a
flux with a source, no target, default vanish edge `'top'`), the code leaves
`out_loc = None` instead of `'top'`. -/
theorem C7_vanishing_flux_out_loc_clobbered :
    (set_loc_out_flux c7_source c7_flux).out_loc = none ∧
    c7_flux.out_flux_vanish = Loc.top ∧
    c7_flux.source_cluster = some c7_source ∧
    c7_flux.target_cluster = none :=
  ⟨rfl, rfl, rfl, rfl⟩

/-- Counterexample to C8: constructing a flux with neither source nor target
does not fail — `Flux.__init__` returns normally (there is no raise in the
constructor), refuting "rejected as a fatal error at construction time". -/
theorem C8_counterexample_construction_succeeds :
    flux_init 3 none none false Loc.top =
      Except.ok
        { flux := 3
          relative_flux := false
          source_cluster := none
          target_cluster := none
          out_flux_vanish := Loc.top
          flux_width := none
          in_loc := none
          out_loc := none
          anchor_out := none
          top_out := none
          anchor_in := none
          top_in := none } := rfl

/-- C8 (amended): constructing a flux with neither source nor target is NOT
rejected at construction time — the constructor returns normally — and the
fatal error surfaces only later, inside geometry construction: `get_patch`
raises `'Flux with neither source nor target cluster'` when both locations
are unset. -/
theorem C8_amended_error_surfaces_in_get_patch (q : ℚ) (r : Bool) (v : Loc)
    (f : Flux) :
    (flux_init q none none r v).isOk = true ∧
    (f.out_loc = none → f.in_loc = none →
      get_patch_dist f =
        Except.error "Flux with neither source nor target cluster") := by
  refine ⟨rfl, fun h1 h2 => ?_⟩
  simp [get_patch_dist, h1, h2]

/-- Witness for C8 (amended) at a concrete input. -/
theorem C8_amended_witness :
    (flux_init 3 none none false Loc.top).isOk = true ∧
    (get_patch_dist (mkFlux none none none Loc.top none none) =
      Except.error "Flux with neither source nor target cluster") := by
  have h := C8_amended_error_surfaces_in_get_patch 3 false Loc.top
    (mkFlux none none none Loc.top none none)
  exact ⟨h.1, h.2 rfl rfl⟩

/-- C10: constructing a flux with `source_cluster=None` and
`target_cluster=None` returns normally, never assigns `flux_width`, and the
`'Flux with neither source nor target cluster'` exception is raised in
`get_patch` exactly when both `in_loc` and `out_loc` are unset. -/
theorem C10_constructor_returns_exception_late (q : ℚ) (r : Bool) (v : Loc)
    (f : Flux) :
    flux_init q none none r v =
      Except.ok
        { flux := q
          relative_flux := r
          source_cluster := none
          target_cluster := none
          out_flux_vanish := v
          flux_width := none
          in_loc := none
          out_loc := none
          anchor_out := none
          top_out := none
          anchor_in := none
          top_in := none } ∧
    (get_patch_dist f =
        Except.error "Flux with neither source nor target cluster" ↔
      f.out_loc = none ∧ f.in_loc = none) := by
  refine ⟨rfl, ?_⟩
  cases ho : f.out_loc <;> cases hi : f.in_loc <;>
    simp [get_patch_dist, ho, hi]

/-! ### Stable-sort lemmas -/

theorem mem_insert_by {α : Type} (lt : α → α → Bool) (x : α) :
    ∀ (l : List α) (a : α), a ∈ insert_by lt x l ↔ a = x ∨ a ∈ l
  | [], a => by simp [insert_by]
  | y :: ys, a => by
    simp only [insert_by]
    by_cases h : lt y x = true
    · rw [if_pos h]
      rw [List.mem_cons, mem_insert_by lt x ys a, List.mem_cons]
      tauto
    · rw [if_neg h]
      simp [List.mem_cons]

theorem insert_by_perm {α : Type} (lt : α → α → Bool) (x : α) :
    ∀ l : List α, List.Perm (insert_by lt x l) (x :: l)
  | [] => List.Perm.refl _
  | y :: ys => by
    simp only [insert_by]
    by_cases h : lt y x = true
    · simp only [if_pos h]
      exact ((insert_by_perm lt x ys).cons y).trans (List.Perm.swap x y ys)
    · simp only [if_neg h]
      exact List.Perm.refl _

theorem sort_by_perm {α : Type} (lt : α → α → Bool) :
    ∀ l : List α, List.Perm (sort_by lt l) l
  | [] => List.Perm.refl _
  | x :: xs =>
    (insert_by_perm lt x (sort_by lt xs)).trans ((sort_by_perm lt xs).cons x)

theorem pairwise_insert_by {α : Type} (lt : α → α → Bool)
    (hasym : ∀ a b, lt a b = true → lt b a = false)
    (hneg : ∀ a b c, lt a b = false → lt b c = false → lt a c = false)
    (x : α) :
    ∀ l : List α, List.Pairwise (fun a b => lt b a = false) l →
      List.Pairwise (fun a b => lt b a = false) (insert_by lt x l)
  | [], _ => by simp [insert_by]
  | y :: ys, hl => by
    rcases List.pairwise_cons.mp hl with ⟨hy, hys⟩
    simp only [insert_by]
    by_cases h : lt y x = true
    · simp only [if_pos h]
      refine List.pairwise_cons.mpr ⟨?_, pairwise_insert_by lt hasym hneg x ys hys⟩
      intro z hz
      rcases (mem_insert_by lt x ys z).mp hz with hzx | hzy
      · rw [hzx]
        exact hasym y x h
      · exact hy z hzy
    · simp only [if_neg h]
      refine List.pairwise_cons.mpr ⟨?_, hl⟩
      intro z hz
      rcases List.mem_cons.mp hz with hzy | hzys
      · subst hzy
        exact Bool.eq_false_iff.mpr h
      · exact hneg z y x (hy z hzys) (Bool.eq_false_iff.mpr h)

theorem pairwise_sort_by {α : Type} (lt : α → α → Bool)
    (hasym : ∀ a b, lt a b = true → lt b a = false)
    (hneg : ∀ a b c, lt a b = false → lt b c = false → lt a c = false) :
    ∀ l : List α,
      List.Pairwise (fun a b => lt b a = false) (sort_by lt l)
  | [] => by simp [sort_by]
  | x :: xs =>
    pairwise_insert_by lt hasym hneg x (sort_by lt xs)
      (pairwise_sort_by lt hasym hneg xs)

/-- Asymmetry of the strict key comparison used by the flux sorts. -/
theorem key_lt_asym {α : Type} (k : α → ℚ) (a b : α)
    (h : decide (k b < k a) = true) : decide (k a < k b) = false := by
  simp only [decide_eq_true_eq] at h
  simpa using le_of_lt h

/-- Negative transitivity of the strict key comparison. -/
theorem key_lt_negtrans {α : Type} (k : α → ℚ) (a b c : α)
    (h1 : decide (k b < k a) = false) (h2 : decide (k c < k b) = false) :
    decide (k c < k a) = false := by
  simp only [decide_eq_false_iff_not, not_lt] at h1 h2 ⊢
  exact h1.trans h2

/-- C4 (amended): after port allocation, `sort_out_fluxes` returns the
top-edge fluxes stable-sorted by non-increasing counterpart mid-height —
with a flux lacking a counterpart keyed by the finite sentinel `-10000`,
not by −∞ — concatenated before the bottom-edge fluxes sorted by
non-decreasing key; `sort_in_fluxes` does the same on the entry side keyed
by source mid-height. -/
theorem C4_amended_edge_ordering (out_fs in_fs : List Flux) :
    (∃ ts bs, sort_out_fluxes out_fs = ts ++ bs ∧
      List.Perm ts (out_fs.filter (fun f => f.out_loc = some Loc.top)) ∧
      List.Pairwise (fun a b => out_sort_key b ≤ out_sort_key a) ts ∧
      List.Perm bs (out_fs.filter (fun f => f.out_loc = some Loc.bottom)) ∧
      List.Pairwise (fun a b => out_sort_key a ≤ out_sort_key b) bs) ∧
    (∃ ts bs, sort_in_fluxes in_fs = ts ++ bs ∧
      List.Perm ts (in_fs.filter (fun f => f.in_loc = some Loc.top)) ∧
      List.Pairwise (fun a b => in_sort_key b ≤ in_sort_key a) ts ∧
      List.Perm bs (in_fs.filter (fun f => f.in_loc = some Loc.bottom)) ∧
      List.Pairwise (fun a b => in_sort_key a ≤ in_sort_key b) bs) := by
  constructor
  · refine ⟨_, _, rfl, sort_by_perm _ _, ?_, sort_by_perm _ _, ?_⟩
    · have h := pairwise_sort_by
        (fun a b => decide (out_sort_key b < out_sort_key a))
        (fun a b => key_lt_asym out_sort_key a b)
        (fun a b c h1 h2 => key_lt_negtrans out_sort_key a b c h1 h2)
        (out_fs.filter (fun f => f.out_loc = some Loc.top))
      refine h.imp ?_
      intro a b hab
      simpa [not_lt] using hab
    · have h := pairwise_sort_by
        (fun a b => decide (out_sort_key a < out_sort_key b))
        (fun a b hab => by
          simp only [decide_eq_true_eq] at hab
          simpa using le_of_lt hab)
        (fun a b c h1 h2 => by
          simp only [decide_eq_false_iff_not, not_lt] at h1 h2 ⊢
          exact h2.trans h1)
        (out_fs.filter (fun f => f.out_loc = some Loc.bottom))
      refine h.imp ?_
      intro a b hab
      simpa [not_lt] using hab
  · refine ⟨_, _, rfl, sort_by_perm _ _, ?_, sort_by_perm _ _, ?_⟩
    · have h := pairwise_sort_by
        (fun a b => decide (in_sort_key b < in_sort_key a))
        (fun a b => key_lt_asym in_sort_key a b)
        (fun a b c h1 h2 => key_lt_negtrans in_sort_key a b c h1 h2)
        (in_fs.filter (fun f => f.in_loc = some Loc.top))
      refine h.imp ?_
      intro a b hab
      simpa [not_lt] using hab
    · have h := pairwise_sort_by
        (fun a b => decide (in_sort_key a < in_sort_key b))
        (fun a b hab => by
          simp only [decide_eq_true_eq] at hab
          simpa using le_of_lt hab)
        (fun a b c h1 h2 => by
          simp only [decide_eq_false_iff_not, not_lt] at h1 h2 ⊢
          exact h2.trans h1)
        (in_fs.filter (fun f => f.in_loc = some Loc.bottom))
      refine h.imp ?_
      intro a b hab
      simpa [not_lt] using hab

/-- Counterexample to C4 as stated: on the list
`[c4_f1 (key 5), c4_f2 (key 5), c4_f3 (no target), c4_f4 (key -20000)]`
(all on the top exit edge) the code returns the list unchanged — the
counterpart-less flux `c4_f3` keeps its sentinel key `-10000` and therefore
sorts BEFORE `c4_f4` (whose counterpart mid-height `-20000` is below the
sentinel) instead of last, and the tied keys `5, 5` make the order
non-strict; so the output is not ordered by strictly descending counterpart
mid-height with counterpart-less fluxes last (mid-height −∞). -/
theorem C4_counterexample_sentinel :
    sort_out_fluxes [c4_f1, c4_f2, c4_f3, c4_f4] =
      [c4_f1, c4_f2, c4_f3, c4_f4] ∧
    ¬ List.Pairwise (fun a b => spec_out_key b < spec_out_key a)
      (sort_out_fluxes [c4_f1, c4_f2, c4_f3, c4_f4]) := by
  have he : sort_out_fluxes [c4_f1, c4_f2, c4_f3, c4_f4] =
      [c4_f1, c4_f2, c4_f3, c4_f4] := by
    norm_num [sort_out_fluxes, sort_by, insert_by, out_sort_key,
      Cluster.mid_height, c4_f1, c4_f2, c4_f3, c4_f4, c4_t5, c4_tlow, mkFlux,
      List.filter]
  refine ⟨he, ?_⟩
  rw [he]
  intro hp
  rcases List.pairwise_cons.mp hp with ⟨h1, _⟩
  have h12 := h1 c4_f2 (by simp)
  simp [spec_out_key, c4_f1, c4_f2, c4_t5, mkFlux, Cluster.mid_height] at h12

/-! ### Band-stacking lemmas -/

theorem ascFrom_bounds :
    ∀ (bs : List (ℚ × ℚ)) (s : ℚ), AscFrom s bs →
      ∀ b ∈ bs, s ≤ b.1 ∧ b.1 < b.2
  | [], _, _, b, hb => absurd hb (List.not_mem_nil b)
  | c :: bs, s, h, b, hb => by
    simp only [AscFrom] at h
    rcases List.mem_cons.mp hb with rfl | hb2
    · exact ⟨le_of_eq h.1.symm, h.2.1⟩
    · have ih := ascFrom_bounds bs c.2 h.2.2 b hb2
      refine ⟨?_, ih.2⟩
      calc s = c.1 := h.1.symm
        _ ≤ c.2 := le_of_lt h.2.1
        _ ≤ b.1 := ih.1

theorem ascFrom_pairwise :
    ∀ (bs : List (ℚ × ℚ)) (s : ℚ), AscFrom s bs →
      List.Pairwise (fun I J : ℚ × ℚ => I.2 ≤ J.1) bs
  | [], _, _ => List.Pairwise.nil
  | c :: bs, s, h => by
    simp only [AscFrom] at h
    refine List.pairwise_cons.mpr
      ⟨fun J hJ => (ascFrom_bounds bs c.2 h.2.2 J hJ).1,
       ascFrom_pairwise bs c.2 h.2.2⟩

theorem descFrom_bounds :
    ∀ (bs : List (ℚ × ℚ)) (s : ℚ), DescFrom s bs →
      ∀ b ∈ bs, b.2 ≤ s ∧ b.1 < b.2
  | [], _, _, b, hb => absurd hb (List.not_mem_nil b)
  | c :: bs, s, h, b, hb => by
    simp only [DescFrom] at h
    rcases List.mem_cons.mp hb with rfl | hb2
    · exact ⟨le_of_eq h.1, h.2.1⟩
    · have ih := descFrom_bounds bs c.1 h.2.2 b hb2
      refine ⟨?_, ih.2⟩
      calc b.2 ≤ c.1 := ih.1
        _ ≤ c.2 := le_of_lt h.2.1
        _ = s := h.1

theorem descFrom_pairwise :
    ∀ (bs : List (ℚ × ℚ)) (s : ℚ), DescFrom s bs →
      List.Pairwise (fun I J : ℚ × ℚ => J.2 ≤ I.1) bs
  | [], _, _ => List.Pairwise.nil
  | c :: bs, s, h => by
    simp only [DescFrom] at h
    refine List.pairwise_cons.mpr
      ⟨fun J hJ => (descFrom_bounds bs c.1 h.2.2 J hJ).1,
       descFrom_pairwise bs c.1 h.2.2⟩

theorem filter_map_cons_kept {α β : Type} {p : α → Bool} (x : α) (l : List α)
    (hx : p x = true) (g : α → β) :
    ((x :: l).filter p).map g = g x :: (l.filter p).map g := by
  simp [List.filter_cons, hx]

theorem filter_map_cons_dropped {α β : Type} {p : α → Bool} (x : α)
    (l : List α) (hx : p x = false) (g : α → β) :
    ((x :: l).filter p).map g = (l.filter p).map g := by
  simp [List.filter_cons, hx]

theorem out_go_top (self : Cluster) :
    ∀ (fs : List Flux) (mb mt : ℚ),
      (∀ f ∈ fs, (∃ w, f.flux_width = some w ∧ 0 < w) ∧
        (f.in_loc = some Loc.top ∨ f.in_loc = some Loc.bottom) ∧
        (f.out_loc = some Loc.top ∨ f.out_loc = some Loc.bottom)) →
      DescFrom ((self.out_ Loc.top).2 + mt)
        (((set_anchor_out_fluxes_go self ⟨mb, mt⟩ fs).filter
            (fun f => f.out_loc = some Loc.top)).map out_band) ∧
      (((set_anchor_out_fluxes_go self ⟨mb, mt⟩ fs).filter
            (fun f => f.out_loc = some Loc.top)).map
          (fun f => (out_band f).2 - (out_band f).1)) =
        ((fs.filter (fun f => f.out_loc = some Loc.top)).map
          (fun f => f.flux_width.getD 0)) := by
  intro fs
  induction fs with
  | nil =>
    intro mb mt _
    simp [set_anchor_out_fluxes_go, DescFrom]
  | cons f fs ih =>
    intro mb mt hall
    obtain ⟨⟨w, hw, hwpos⟩, hil, hol⟩ := hall f (List.mem_cons_self f fs)
    have hrest := fun g hg => hall g (List.mem_cons_of_mem f hg)
    rcases hol with hol | hol
    · -- top-edge flux: kept by the top filter, top margin decreases by w
      have hb := ih mb (mt + -w) hrest
      have harith : (self.out_ Loc.top).2 + (mt + -w) =
          (self.out_ Loc.top).2 + mt - w := by ring
      rw [harith] at hb
      rcases hil with hil | hil
      · -- in_loc = top: anchor_out gets +0, top_out gets -w
        have step : set_anchor_out_fluxes_go self ⟨mb, mt⟩ (f :: fs) =
            { f with
              out_loc := some Loc.top
              anchor_out := some ((self.out_ Loc.top).1,
                (self.out_ Loc.top).2 + mt)
              top_out := some ((self.out_ Loc.top).1,
                (self.out_ Loc.top).2 + mt + -w) } ::
            set_anchor_out_fluxes_go self ⟨mb, mt + -w⟩ fs := by
          simp [set_anchor_out_fluxes_go, hol, hw, hil, get_loc_out_flux,
            Margins.get, Margins.add]
        rw [step, filter_map_cons_kept _ _ (by simp) out_band,
          filter_map_cons_kept _ _ (by simp)
            (fun f => (out_band f).2 - (out_band f).1)]
        have hband : out_band
            { f with
              out_loc := some Loc.top
              anchor_out := some ((self.out_ Loc.top).1,
                (self.out_ Loc.top).2 + mt)
              top_out := some ((self.out_ Loc.top).1,
                (self.out_ Loc.top).2 + mt + -w) } =
            ((self.out_ Loc.top).2 + mt - w,
             (self.out_ Loc.top).2 + mt) := by
          simp only [out_band, Option.getD_some]
          rw [min_eq_right (by linarith), max_eq_left (by linarith)]
          simp only [Prod.mk.injEq]
          exact ⟨by ring, by trivial⟩
        rw [hband]
        refine ⟨?_, ?_⟩
        · simp only [DescFrom]
          refine ⟨by trivial, by linarith, hb.1⟩
        · rw [filter_map_cons_kept f fs (by simp [hol])
            (fun g => g.flux_width.getD 0)]
          simp only [List.cons.injEq, hw, Option.getD_some, hband]
          exact ⟨by ring, hb.2⟩
      · -- in_loc = bottom: anchor_out gets -w, top_out gets +0
        have step : set_anchor_out_fluxes_go self ⟨mb, mt⟩ (f :: fs) =
            { f with
              out_loc := some Loc.top
              anchor_out := some ((self.out_ Loc.top).1,
                (self.out_ Loc.top).2 + mt + -w)
              top_out := some ((self.out_ Loc.top).1,
                (self.out_ Loc.top).2 + mt) } ::
            set_anchor_out_fluxes_go self ⟨mb, mt + -w⟩ fs := by
          simp [set_anchor_out_fluxes_go, hol, hw, hil, get_loc_out_flux,
            Margins.get, Margins.add]
        rw [step, filter_map_cons_kept _ _ (by simp) out_band,
          filter_map_cons_kept _ _ (by simp)
            (fun f => (out_band f).2 - (out_band f).1)]
        have hband : out_band
            { f with
              out_loc := some Loc.top
              anchor_out := some ((self.out_ Loc.top).1,
                (self.out_ Loc.top).2 + mt + -w)
              top_out := some ((self.out_ Loc.top).1,
                (self.out_ Loc.top).2 + mt) } =
            ((self.out_ Loc.top).2 + mt - w,
             (self.out_ Loc.top).2 + mt) := by
          simp only [out_band, Option.getD_some]
          rw [min_eq_left (by linarith), max_eq_right (by linarith)]
          simp only [Prod.mk.injEq]
          exact ⟨by ring, by trivial⟩
        rw [hband]
        refine ⟨?_, ?_⟩
        · simp only [DescFrom]
          refine ⟨by trivial, by linarith, hb.1⟩
        · rw [filter_map_cons_kept f fs (by simp [hol])
            (fun g => g.flux_width.getD 0)]
          simp only [List.cons.injEq, hw, Option.getD_some, hband]
          exact ⟨by ring, hb.2⟩
    · -- bottom-edge flux: dropped by the top filter, top margin unchanged
      simp only [set_anchor_out_fluxes_go, hol, hw]
      simp only [get_loc_out_flux, Margins.get, Margins.add, if_pos,
        reduceCtorEq, ite_true]
      have := ih (mb + w) mt hrest
      simpa [hol, List.filter_cons] using this

theorem out_go_bottom (self : Cluster) :
    ∀ (fs : List Flux) (mb mt : ℚ),
      (∀ f ∈ fs, (∃ w, f.flux_width = some w ∧ 0 < w) ∧
        (f.in_loc = some Loc.top ∨ f.in_loc = some Loc.bottom) ∧
        (f.out_loc = some Loc.top ∨ f.out_loc = some Loc.bottom)) →
      AscFrom ((self.out_ Loc.bottom).2 + mb)
        (((set_anchor_out_fluxes_go self ⟨mb, mt⟩ fs).filter
            (fun f => f.out_loc = some Loc.bottom)).map out_band) ∧
      (((set_anchor_out_fluxes_go self ⟨mb, mt⟩ fs).filter
            (fun f => f.out_loc = some Loc.bottom)).map
          (fun f => (out_band f).2 - (out_band f).1)) =
        ((fs.filter (fun f => f.out_loc = some Loc.bottom)).map
          (fun f => f.flux_width.getD 0)) := by
  intro fs
  induction fs with
  | nil =>
    intro mb mt _
    simp [set_anchor_out_fluxes_go, AscFrom]
  | cons f fs ih =>
    intro mb mt hall
    obtain ⟨⟨w, hw, hwpos⟩, hil, hol⟩ := hall f (List.mem_cons_self f fs)
    have hrest := fun g hg => hall g (List.mem_cons_of_mem f hg)
    rcases hol with hol | hol
    · -- top-edge flux: dropped by the bottom filter, bottom margin unchanged
      simp only [set_anchor_out_fluxes_go, hol, hw]
      have hmt : Margins.add ⟨mb, mt⟩ Loc.top
          (if Loc.top = Loc.bottom then w else -w) = ⟨mb, mt + -w⟩ := by
        simp [Margins.add]
      simp only [get_loc_out_flux, Margins.get, Margins.add, if_neg,
        reduceCtorEq, ite_false]
      have := ih mb (mt + -w) hrest
      simpa [hol, List.filter_cons] using this
    · -- bottom-edge flux
      have hb := ih (mb + w) mt hrest
      have harith : (self.out_ Loc.bottom).2 + (mb + w) =
          (self.out_ Loc.bottom).2 + mb + w := by ring
      rw [harith] at hb
      rcases hil with hil | hil
      · -- in_loc = top: anchor_out gets +0, top_out gets +w
        have step : set_anchor_out_fluxes_go self ⟨mb, mt⟩ (f :: fs) =
            { f with
              out_loc := some Loc.bottom
              anchor_out := some ((self.out_ Loc.bottom).1,
                (self.out_ Loc.bottom).2 + mb)
              top_out := some ((self.out_ Loc.bottom).1,
                (self.out_ Loc.bottom).2 + mb + w) } ::
            set_anchor_out_fluxes_go self ⟨mb + w, mt⟩ fs := by
          simp [set_anchor_out_fluxes_go, hol, hw, hil, get_loc_out_flux,
            Margins.get, Margins.add]
        rw [step, filter_map_cons_kept _ _ (by simp) out_band,
          filter_map_cons_kept _ _ (by simp)
            (fun f => (out_band f).2 - (out_band f).1)]
        have hband : out_band
            { f with
              out_loc := some Loc.bottom
              anchor_out := some ((self.out_ Loc.bottom).1,
                (self.out_ Loc.bottom).2 + mb)
              top_out := some ((self.out_ Loc.bottom).1,
                (self.out_ Loc.bottom).2 + mb + w) } =
            ((self.out_ Loc.bottom).2 + mb,
             (self.out_ Loc.bottom).2 + mb + w) := by
          simp only [out_band, Option.getD_some]
          rw [min_eq_left (by linarith), max_eq_right (by linarith)]
        rw [hband]
        refine ⟨?_, ?_⟩
        · simp only [AscFrom]
          refine ⟨by trivial, by linarith, hb.1⟩
        · rw [filter_map_cons_kept f fs (by simp [hol])
            (fun g => g.flux_width.getD 0)]
          simp only [List.cons.injEq, hw, Option.getD_some, hband]
          exact ⟨by ring, hb.2⟩
      · -- in_loc = bottom: anchor_out gets +w, top_out gets +0
        have step : set_anchor_out_fluxes_go self ⟨mb, mt⟩ (f :: fs) =
            { f with
              out_loc := some Loc.bottom
              anchor_out := some ((self.out_ Loc.bottom).1,
                (self.out_ Loc.bottom).2 + mb + w)
              top_out := some ((self.out_ Loc.bottom).1,
                (self.out_ Loc.bottom).2 + mb) } ::
            set_anchor_out_fluxes_go self ⟨mb + w, mt⟩ fs := by
          simp [set_anchor_out_fluxes_go, hol, hw, hil, get_loc_out_flux,
            Margins.get, Margins.add]
        rw [step, filter_map_cons_kept _ _ (by simp) out_band,
          filter_map_cons_kept _ _ (by simp)
            (fun f => (out_band f).2 - (out_band f).1)]
        have hband : out_band
            { f with
              out_loc := some Loc.bottom
              anchor_out := some ((self.out_ Loc.bottom).1,
                (self.out_ Loc.bottom).2 + mb + w)
              top_out := some ((self.out_ Loc.bottom).1,
                (self.out_ Loc.bottom).2 + mb) } =
            ((self.out_ Loc.bottom).2 + mb,
             (self.out_ Loc.bottom).2 + mb + w) := by
          simp only [out_band, Option.getD_some]
          rw [min_eq_right (by linarith), max_eq_left (by linarith)]
        rw [hband]
        refine ⟨?_, ?_⟩
        · simp only [AscFrom]
          refine ⟨by trivial, by linarith, hb.1⟩
        · rw [filter_map_cons_kept f fs (by simp [hol])
            (fun g => g.flux_width.getD 0)]
          simp only [List.cons.injEq, hw, Option.getD_some, hband]
          exact ⟨by ring, hb.2⟩

theorem in_go_bottom (self : Cluster) :
    ∀ (fs : List Flux) (mb mt : ℚ),
      (∀ f ∈ fs, (∃ w, f.flux_width = some w ∧ 0 < w) ∧
        (f.in_loc = some Loc.top ∨ f.in_loc = some Loc.bottom) ∧
        (f.out_loc = some Loc.top ∨ f.out_loc = some Loc.bottom)) →
      AscFrom ((self.in_ Loc.bottom).2 + mb)
        (((set_anchor_in_fluxes_go self ⟨mb, mt⟩ fs).filter
            (fun f => f.in_loc = some Loc.bottom)).map in_band) ∧
      (((set_anchor_in_fluxes_go self ⟨mb, mt⟩ fs).filter
            (fun f => f.in_loc = some Loc.bottom)).map
          (fun f => (in_band f).2 - (in_band f).1)) =
        ((fs.filter (fun f => f.in_loc = some Loc.bottom)).map
          (fun f => f.flux_width.getD 0)) := by
  intro fs
  induction fs with
  | nil =>
    intro mb mt _
    simp [set_anchor_in_fluxes_go, AscFrom]
  | cons f fs ih =>
    intro mb mt hall
    obtain ⟨⟨w, hw, hwpos⟩, hil, hol⟩ := hall f (List.mem_cons_self f fs)
    have hrest := fun g hg => hall g (List.mem_cons_of_mem f hg)
    rcases hil with hil | hil
    · -- top-edge flux: dropped by the bottom filter, bottom margin unchanged
      simp only [set_anchor_in_fluxes_go, hil, hw]
      simp only [get_loc_in_flux, Margins.get, Margins.add, if_neg,
        reduceCtorEq, ite_false]
      have := ih mb (mt + -w) hrest
      simpa [hil, List.filter_cons] using this
    · -- bottom-edge flux
      have hb := ih (mb + w) mt hrest
      have harith : (self.in_ Loc.bottom).2 + (mb + w) =
          (self.in_ Loc.bottom).2 + mb + w := by ring
      rw [harith] at hb
      rcases hol with hol | hol
      · -- out_loc = top: anchor_in gets +0, top_in gets +w
        have step : set_anchor_in_fluxes_go self ⟨mb, mt⟩ (f :: fs) =
            { f with
              in_loc := some Loc.bottom
              anchor_in := some ((self.in_ Loc.bottom).1,
                (self.in_ Loc.bottom).2 + mb)
              top_in := some ((self.in_ Loc.bottom).1,
                (self.in_ Loc.bottom).2 + mb + w) } ::
            set_anchor_in_fluxes_go self ⟨mb + w, mt⟩ fs := by
          simp [set_anchor_in_fluxes_go, hil, hw, hol, get_loc_in_flux,
            Margins.get, Margins.add]
        rw [step, filter_map_cons_kept _ _ (by simp) in_band,
          filter_map_cons_kept _ _ (by simp)
            (fun f => (in_band f).2 - (in_band f).1)]
        have hband : in_band
            { f with
              in_loc := some Loc.bottom
              anchor_in := some ((self.in_ Loc.bottom).1,
                (self.in_ Loc.bottom).2 + mb)
              top_in := some ((self.in_ Loc.bottom).1,
                (self.in_ Loc.bottom).2 + mb + w) } =
            ((self.in_ Loc.bottom).2 + mb,
             (self.in_ Loc.bottom).2 + mb + w) := by
          simp only [in_band, Option.getD_some]
          rw [min_eq_left (by linarith), max_eq_right (by linarith)]
        rw [hband]
        refine ⟨?_, ?_⟩
        · simp only [AscFrom]
          refine ⟨by trivial, by linarith, hb.1⟩
        · rw [filter_map_cons_kept f fs (by simp [hil])
            (fun g => g.flux_width.getD 0)]
          simp only [List.cons.injEq, hw, Option.getD_some, hband]
          exact ⟨by ring, hb.2⟩
      · -- out_loc = bottom: anchor_in gets +w, top_in gets +0
        have step : set_anchor_in_fluxes_go self ⟨mb, mt⟩ (f :: fs) =
            { f with
              in_loc := some Loc.bottom
              anchor_in := some ((self.in_ Loc.bottom).1,
                (self.in_ Loc.bottom).2 + mb + w)
              top_in := some ((self.in_ Loc.bottom).1,
                (self.in_ Loc.bottom).2 + mb) } ::
            set_anchor_in_fluxes_go self ⟨mb + w, mt⟩ fs := by
          simp [set_anchor_in_fluxes_go, hil, hw, hol, get_loc_in_flux,
            Margins.get, Margins.add]
        rw [step, filter_map_cons_kept _ _ (by simp) in_band,
          filter_map_cons_kept _ _ (by simp)
            (fun f => (in_band f).2 - (in_band f).1)]
        have hband : in_band
            { f with
              in_loc := some Loc.bottom
              anchor_in := some ((self.in_ Loc.bottom).1,
                (self.in_ Loc.bottom).2 + mb + w)
              top_in := some ((self.in_ Loc.bottom).1,
                (self.in_ Loc.bottom).2 + mb) } =
            ((self.in_ Loc.bottom).2 + mb,
             (self.in_ Loc.bottom).2 + mb + w) := by
          simp only [in_band, Option.getD_some]
          rw [min_eq_right (by linarith), max_eq_left (by linarith)]
        rw [hband]
        refine ⟨?_, ?_⟩
        · simp only [AscFrom]
          refine ⟨by trivial, by linarith, hb.1⟩
        · rw [filter_map_cons_kept f fs (by simp [hil])
            (fun g => g.flux_width.getD 0)]
          simp only [List.cons.injEq, hw, Option.getD_some, hband]
          exact ⟨by ring, hb.2⟩

theorem in_go_top (self : Cluster) :
    ∀ (fs : List Flux) (mb mt : ℚ),
      (∀ f ∈ fs, (∃ w, f.flux_width = some w ∧ 0 < w) ∧
        (f.in_loc = some Loc.top ∨ f.in_loc = some Loc.bottom) ∧
        (f.out_loc = some Loc.top ∨ f.out_loc = some Loc.bottom)) →
      DescFrom ((self.in_ Loc.top).2 + mt)
        (((set_anchor_in_fluxes_go self ⟨mb, mt⟩ fs).filter
            (fun f => f.in_loc = some Loc.top)).map in_band) ∧
      (((set_anchor_in_fluxes_go self ⟨mb, mt⟩ fs).filter
            (fun f => f.in_loc = some Loc.top)).map
          (fun f => (in_band f).2 - (in_band f).1)) =
        ((fs.filter (fun f => f.in_loc = some Loc.top)).map
          (fun f => f.flux_width.getD 0)) := by
  intro fs
  induction fs with
  | nil =>
    intro mb mt _
    simp [set_anchor_in_fluxes_go, DescFrom]
  | cons f fs ih =>
    intro mb mt hall
    obtain ⟨⟨w, hw, hwpos⟩, hil, hol⟩ := hall f (List.mem_cons_self f fs)
    have hrest := fun g hg => hall g (List.mem_cons_of_mem f hg)
    rcases hil with hil | hil
    · -- top-edge flux: kept by the top filter, top margin decreases by w
      have hb := ih mb (mt + -w) hrest
      have harith : (self.in_ Loc.top).2 + (mt + -w) =
          (self.in_ Loc.top).2 + mt - w := by ring
      rw [harith] at hb
      rcases hol with hol | hol
      · -- out_loc = top: anchor_in gets +0, top_in gets -w
        have step : set_anchor_in_fluxes_go self ⟨mb, mt⟩ (f :: fs) =
            { f with
              in_loc := some Loc.top
              anchor_in := some ((self.in_ Loc.top).1,
                (self.in_ Loc.top).2 + mt)
              top_in := some ((self.in_ Loc.top).1,
                (self.in_ Loc.top).2 + mt + -w) } ::
            set_anchor_in_fluxes_go self ⟨mb, mt + -w⟩ fs := by
          simp [set_anchor_in_fluxes_go, hil, hw, hol, get_loc_in_flux,
            Margins.get, Margins.add]
        rw [step, filter_map_cons_kept _ _ (by simp) in_band,
          filter_map_cons_kept _ _ (by simp)
            (fun f => (in_band f).2 - (in_band f).1)]
        have hband : in_band
            { f with
              in_loc := some Loc.top
              anchor_in := some ((self.in_ Loc.top).1,
                (self.in_ Loc.top).2 + mt)
              top_in := some ((self.in_ Loc.top).1,
                (self.in_ Loc.top).2 + mt + -w) } =
            ((self.in_ Loc.top).2 + mt - w,
             (self.in_ Loc.top).2 + mt) := by
          simp only [in_band, Option.getD_some]
          rw [min_eq_right (by linarith), max_eq_left (by linarith)]
          simp only [Prod.mk.injEq]
          exact ⟨by ring, by trivial⟩
        rw [hband]
        refine ⟨?_, ?_⟩
        · simp only [DescFrom]
          refine ⟨by trivial, by linarith, hb.1⟩
        · rw [filter_map_cons_kept f fs (by simp [hil])
            (fun g => g.flux_width.getD 0)]
          simp only [List.cons.injEq, hw, Option.getD_some, hband]
          exact ⟨by ring, hb.2⟩
      · -- out_loc = bottom: anchor_in gets -w, top_in gets +0
        have step : set_anchor_in_fluxes_go self ⟨mb, mt⟩ (f :: fs) =
            { f with
              in_loc := some Loc.top
              anchor_in := some ((self.in_ Loc.top).1,
                (self.in_ Loc.top).2 + mt + -w)
              top_in := some ((self.in_ Loc.top).1,
                (self.in_ Loc.top).2 + mt) } ::
            set_anchor_in_fluxes_go self ⟨mb, mt + -w⟩ fs := by
          simp [set_anchor_in_fluxes_go, hil, hw, hol, get_loc_in_flux,
            Margins.get, Margins.add]
        rw [step, filter_map_cons_kept _ _ (by simp) in_band,
          filter_map_cons_kept _ _ (by simp)
            (fun f => (in_band f).2 - (in_band f).1)]
        have hband : in_band
            { f with
              in_loc := some Loc.top
              anchor_in := some ((self.in_ Loc.top).1,
                (self.in_ Loc.top).2 + mt + -w)
              top_in := some ((self.in_ Loc.top).1,
                (self.in_ Loc.top).2 + mt) } =
            ((self.in_ Loc.top).2 + mt - w,
             (self.in_ Loc.top).2 + mt) := by
          simp only [in_band, Option.getD_some]
          rw [min_eq_left (by linarith), max_eq_right (by linarith)]
          simp only [Prod.mk.injEq]
          exact ⟨by ring, by trivial⟩
        rw [hband]
        refine ⟨?_, ?_⟩
        · simp only [DescFrom]
          refine ⟨by trivial, by linarith, hb.1⟩
        · rw [filter_map_cons_kept f fs (by simp [hil])
            (fun g => g.flux_width.getD 0)]
          simp only [List.cons.injEq, hw, Option.getD_some, hband]
          exact ⟨by ring, hb.2⟩
    · -- bottom-edge flux: dropped by the top filter, top margin unchanged
      simp only [set_anchor_in_fluxes_go, hil, hw]
      simp only [get_loc_in_flux, Margins.get, Margins.add, if_pos,
        reduceCtorEq, ite_true]
      have := ih (mb + w) mt hrest
      simpa [hil, List.filter_cons] using this

/-- C3 (amended): for every block and each of its four edges, processing the
edge's fluxes in the computed order stacks them against the edge's running
margin, but the direction depends on the edge: on a *bottom* edge the signed
width is `+flux_width`, each sub-interval starts at the current margin and
the intervals are contiguous and strictly *increasing*; on a *top* edge the
signed width is `-flux_width`, each sub-interval ends at the current margin
and the intervals are contiguous and strictly *decreasing*.  On every edge
the sub-intervals are non-overlapping and their total length equals the sum
of the `flux_width`s of the fluxes on that edge. -/
theorem C3_amended_edge_stacking (self : Cluster) (out_fs in_fs : List Flux)
    (hout : ∀ f ∈ out_fs, (∃ w, f.flux_width = some w ∧ 0 < w) ∧
      (f.in_loc = some Loc.top ∨ f.in_loc = some Loc.bottom) ∧
      (f.out_loc = some Loc.top ∨ f.out_loc = some Loc.bottom))
    (hin : ∀ f ∈ in_fs, (∃ w, f.flux_width = some w ∧ 0 < w) ∧
      (f.in_loc = some Loc.top ∨ f.in_loc = some Loc.bottom) ∧
      (f.out_loc = some Loc.top ∨ f.out_loc = some Loc.bottom)) :
    (AscFrom ((self.out_ Loc.bottom).2)
        (((set_anchor_out_fluxes self out_fs).filter
            (fun f => f.out_loc = some Loc.bottom)).map out_band) ∧
      List.Pairwise (fun I J : ℚ × ℚ => I.2 ≤ J.1)
        (((set_anchor_out_fluxes self out_fs).filter
            (fun f => f.out_loc = some Loc.bottom)).map out_band) ∧
      (((set_anchor_out_fluxes self out_fs).filter
            (fun f => f.out_loc = some Loc.bottom)).map
          (fun f => (out_band f).2 - (out_band f).1)).sum =
        ((out_fs.filter (fun f => f.out_loc = some Loc.bottom)).map
          (fun f => f.flux_width.getD 0)).sum) ∧
    (DescFrom ((self.out_ Loc.top).2)
        (((set_anchor_out_fluxes self out_fs).filter
            (fun f => f.out_loc = some Loc.top)).map out_band) ∧
      List.Pairwise (fun I J : ℚ × ℚ => J.2 ≤ I.1)
        (((set_anchor_out_fluxes self out_fs).filter
            (fun f => f.out_loc = some Loc.top)).map out_band) ∧
      (((set_anchor_out_fluxes self out_fs).filter
            (fun f => f.out_loc = some Loc.top)).map
          (fun f => (out_band f).2 - (out_band f).1)).sum =
        ((out_fs.filter (fun f => f.out_loc = some Loc.top)).map
          (fun f => f.flux_width.getD 0)).sum) ∧
    (AscFrom ((self.in_ Loc.bottom).2)
        (((set_anchor_in_fluxes self in_fs).filter
            (fun f => f.in_loc = some Loc.bottom)).map in_band) ∧
      List.Pairwise (fun I J : ℚ × ℚ => I.2 ≤ J.1)
        (((set_anchor_in_fluxes self in_fs).filter
            (fun f => f.in_loc = some Loc.bottom)).map in_band) ∧
      (((set_anchor_in_fluxes self in_fs).filter
            (fun f => f.in_loc = some Loc.bottom)).map
          (fun f => (in_band f).2 - (in_band f).1)).sum =
        ((in_fs.filter (fun f => f.in_loc = some Loc.bottom)).map
          (fun f => f.flux_width.getD 0)).sum) ∧
    (DescFrom ((self.in_ Loc.top).2)
        (((set_anchor_in_fluxes self in_fs).filter
            (fun f => f.in_loc = some Loc.top)).map in_band) ∧
      List.Pairwise (fun I J : ℚ × ℚ => J.2 ≤ I.1)
        (((set_anchor_in_fluxes self in_fs).filter
            (fun f => f.in_loc = some Loc.top)).map in_band) ∧
      (((set_anchor_in_fluxes self in_fs).filter
            (fun f => f.in_loc = some Loc.top)).map
          (fun f => (in_band f).2 - (in_band f).1)).sum =
        ((in_fs.filter (fun f => f.in_loc = some Loc.top)).map
          (fun f => f.flux_width.getD 0)).sum) := by
  have h1 := out_go_bottom self out_fs 0 0 hout
  have h2 := out_go_top self out_fs 0 0 hout
  have h3 := in_go_bottom self in_fs 0 0 hin
  have h4 := in_go_top self in_fs 0 0 hin
  rw [add_zero] at h1 h2 h3 h4
  simp only [set_anchor_out_fluxes, set_anchor_in_fluxes]
  exact ⟨⟨h1.1, ascFrom_pairwise _ _ h1.1, congrArg List.sum h1.2⟩,
    ⟨h2.1, descFrom_pairwise _ _ h2.1, congrArg List.sum h2.2⟩,
    ⟨h3.1, ascFrom_pairwise _ _ h3.1, congrArg List.sum h3.2⟩,
    ⟨h4.1, descFrom_pairwise _ _ h4.1, congrArg List.sum h4.2⟩⟩

/-- Witness for C3 (amended) at a concrete input: a single width-2 flux
leaving `c1_S` from the bottom edge and a single width-1 flux entering it on
the top edge. -/
theorem C3_amended_witness :
    AscFrom ((c1_S.out_ Loc.bottom).2)
      (((set_anchor_out_fluxes c1_S
          [mkFlux (some 2) none none Loc.top (some Loc.top)
            (some Loc.bottom)]).filter
          (fun f => f.out_loc = some Loc.bottom)).map out_band) :=
  (C3_amended_edge_stacking c1_S
    [mkFlux (some 2) none none Loc.top (some Loc.top) (some Loc.bottom)]
    [mkFlux (some 1) none none Loc.top (some Loc.bottom) (some Loc.top)]
    (by intro f hf; simp only [List.mem_singleton] at hf; subst hf
        exact ⟨⟨2, rfl, by norm_num⟩, Or.inl rfl, Or.inr rfl⟩)
    (by intro f hf; simp only [List.mem_singleton] at hf; subst hf
        exact ⟨⟨1, rfl, by norm_num⟩, Or.inr rfl, Or.inl rfl⟩)).1.1

/-- Counterexample to C3 as stated: two width-1 fluxes on the *top* exit edge
of `c3_self` (whose top-out anchor is at `y = 0`) receive the bands
`(-1, 0)` and then `(-2, -1)`: the second band lies strictly *below* the
first, so the sub-intervals on a top edge are strictly decreasing, not
"strictly increasing", and each starts at margin *minus* width rather than
at the margin. -/
theorem C3_counterexample_top_edge_descends :
    ((set_anchor_out_fluxes c3_self [c3_f, c3_f]).map out_band =
      [(-1, 0), (-2, -1)]) ∧
    ¬ List.Pairwise (fun I J : ℚ × ℚ => I.2 ≤ J.1)
      ((set_anchor_out_fluxes c3_self [c3_f, c3_f]).map out_band) := by
  have he : (set_anchor_out_fluxes c3_self [c3_f, c3_f]).map out_band =
      [((-1 : ℚ), (0 : ℚ)), ((-2 : ℚ), (-1 : ℚ))] := by
    simp [set_anchor_out_fluxes, set_anchor_out_fluxes_go, c3_self, c3_f,
      mkFlux, get_loc_out_flux, Margins.get, Margins.add, Cluster.out_,
      out_band]
    norm_num [min_def, max_def]
  refine ⟨he, ?_⟩
  rw [he]
  intro hp
  rcases List.pairwise_cons.mp hp with ⟨h1, _⟩
  have := h1 ((-2 : ℚ), (-1 : ℚ)) (by simp)
  norm_num at this

/-! ### Column-layout invariant lemmas -/

theorem contig_stack (sp : ℚ) :
    ∀ (l : List Cluster) (d : ℚ), Contig sp (stack_clusters sp d l)
  | [], _ => List.chain'_nil
  | [c], _ => by simp [stack_clusters, Contig]
  | c :: c2 :: rest, d => by
    have ih := contig_stack sp (c2 :: rest) (d + c.height + sp)
    simp only [stack_clusters] at ih ⊢
    rw [Contig, List.chain'_cons]
    refine ⟨by simp [Cluster.set_y_pos], ?_⟩
    exact ih

theorem hnn_stack (sp : ℚ) :
    ∀ (l : List Cluster) (d : ℚ), (∀ c ∈ l, 0 ≤ c.height) →
      ∀ c ∈ stack_clusters sp d l, 0 ≤ c.height
  | [], _, _, c, hc => absurd hc (List.not_mem_nil c)
  | c0 :: cs, d, hh, c, hc => by
    simp only [stack_clusters, List.mem_cons] at hc
    rcases hc with rfl | hc
    · simpa [Cluster.set_y_pos] using hh c0 (List.mem_cons_self c0 cs)
    · exact hnn_stack sp cs (d + c0.height + sp)
        (fun g hg => hh g (List.mem_cons_of_mem c0 hg)) c hc

theorem contig_recenter (sp : ℚ) :
    ∀ (l : List Cluster), Contig sp l → Contig sp (recenter_column l)
  | [], h => by simpa [recenter_column] using h
  | c0 :: rest, h => by
    simp only [recenter_column]
    rw [Contig, List.chain'_map]
    refine h.imp ?_
    intro a b hab
    simp only [Cluster.set_y_pos]
    rw [hab]
    ring

theorem hnn_recenter :
    ∀ (l : List Cluster), (∀ c ∈ l, 0 ≤ c.height) →
      ∀ c ∈ recenter_column l, 0 ≤ c.height
  | [], _, c, hc => by simp [recenter_column] at hc
  | c0 :: rest, hh, c, hc => by
    simp only [recenter_column, List.mem_map] at hc
    obtain ⟨g, hg, rfl⟩ := hc
    simpa [Cluster.set_y_pos] using hh g hg

theorem contig_distribute (sp : ℚ) (l : List Cluster) :
    Contig sp (distribute_column sp l) :=
  contig_recenter sp _ (contig_stack sp l 0)

theorem hnn_distribute (sp : ℚ) (l : List Cluster)
    (hh : ∀ c ∈ l, 0 ≤ c.height) :
    ∀ c ∈ distribute_column sp l, 0 ≤ c.height :=
  hnn_recenter _ (hnn_stack sp l 0 hh)

theorem swap_head_y (sp : ℚ) :
    ∀ (l : List Cluster) (i : ℕ),
      ((swap_step sp l i).head?).map Cluster.y_pos =
        (l.head?).map Cluster.y_pos
  | [], _ => rfl
  | [c], 0 => rfl
  | c1 :: c2 :: cs, 0 => by simp [swap_step, Cluster.set_y_pos]
  | c :: cs, n + 1 => by
    cases cs with
    | nil => rfl
    | cons c2 cs2 => simp [swap_step]

theorem hnn_swap (sp : ℚ) :
    ∀ (l : List Cluster) (i : ℕ), (∀ c ∈ l, 0 ≤ c.height) →
      ∀ c ∈ swap_step sp l i, 0 ≤ c.height
  | [], _, _, c, hc => by simp [swap_step] at hc
  | [c0], 0, hh, c, hc => by
    simp only [swap_step] at hc
    exact hh c hc
  | c1 :: c2 :: cs, 0, hh, c, hc => by
    simp only [swap_step, List.mem_cons] at hc
    rcases hc with rfl | rfl | hc
    · simpa [Cluster.set_y_pos] using hh c2 (by simp)
    · simpa [Cluster.set_y_pos] using hh c1 (by simp)
    · exact hh c (by simp [hc])
  | c0 :: cs, n + 1, hh, c, hc => by
    simp only [swap_step, List.mem_cons] at hc
    rcases hc with rfl | hc
    · exact hh c (List.mem_cons_self c cs)
    · exact hnn_swap sp cs n
        (fun g hg => hh g (List.mem_cons_of_mem c0 hg)) c hc

theorem contig_swap (sp : ℚ) :
    ∀ (l : List Cluster) (i : ℕ), Contig sp l →
      Contig sp (swap_step sp l i)
  | [], i, h => by
    simpa [swap_step] using h
  | [c], 0, h => by
    simpa [swap_step] using h
  | c1 :: c2 :: cs, 0, h => by
    rw [Contig, List.chain'_cons] at h
    obtain ⟨h12, h2⟩ := h
    simp only [swap_step]
    rw [Contig, List.chain'_cons]
    constructor
    · simp [Cluster.set_y_pos]
    · rw [List.chain'_cons'] at h2
      rw [List.chain'_cons']
      constructor
      · intro b hb
        have := h2.1 b hb
        simp only [Cluster.set_y_pos] at this ⊢
        rw [this, h12]
        ring
      · exact h2.2
  | c :: cs, n + 1, h => by
    simp only [swap_step]
    rw [Contig, List.chain'_cons'] at h ⊢
    refine ⟨?_, contig_swap sp cs n h.2⟩
    intro b hb
    have hhead := swap_head_y sp cs n
    rw [Option.mem_def] at hb
    have h2 : (cs.head?).map Cluster.y_pos = some b.y_pos := by
      rw [← hhead, hb]
      rfl
    cases hcs : cs.head? with
    | none =>
      rw [hcs] at h2
      exact Option.noConfusion h2
    | some b0 =>
      rw [hcs] at h2
      simp only [Option.map_some', Option.some.injEq] at h2
      have hb0 := h.1 b0 (by rw [hcs]; rfl)
      rw [← h2]
      exact hb0

theorem contig_chain_strong (sp : ℚ) (hsp : 0 < sp) :
    ∀ (l : List Cluster), (∀ c ∈ l, 0 ≤ c.height) → Contig sp l →
      List.Chain' (fun a b =>
        (a.y_pos < b.y_pos ∧ a.y_pos + a.height < b.y_pos) ∧
          0 ≤ b.height) l
  | [], _, _ => List.chain'_nil
  | c :: cs, hh, hc => by
    rw [Contig, List.chain'_cons'] at hc
    rw [List.chain'_cons']
    constructor
    · intro b hb
      have hcy := hc.1 b hb
      have hch : 0 ≤ c.height := hh c (List.mem_cons_self c cs)
      have hbmem : b ∈ cs := List.mem_of_mem_head? hb
      have hbh : 0 ≤ b.height := hh b (List.mem_cons_of_mem c hbmem)
      refine ⟨⟨?_, ?_⟩, hbh⟩
      · rw [hcy]; linarith
      · rw [hcy]; linarith
    · exact contig_chain_strong sp hsp cs
        (fun g hg => hh g (List.mem_cons_of_mem c hg)) hc.2

theorem contig_pairwise_strong (sp : ℚ) (hsp : 0 < sp)
    (l : List Cluster) (hh : ∀ c ∈ l, 0 ≤ c.height) (hc : Contig sp l) :
    List.Pairwise (fun a b =>
      (a.y_pos < b.y_pos ∧ a.y_pos + a.height < b.y_pos) ∧
        0 ≤ b.height) l := by
  haveI : IsTrans Cluster (fun a b =>
      (a.y_pos < b.y_pos ∧ a.y_pos + a.height < b.y_pos) ∧
        0 ≤ b.height) := by
    refine ⟨fun a b c hab hbc => ?_⟩
    obtain ⟨⟨h1, h2⟩, h3⟩ := hab
    obtain ⟨⟨h4, h5⟩, h6⟩ := hbc
    exact ⟨⟨lt_trans h1 h4, lt_trans h2 h4⟩, h6⟩
  exact List.chain'_iff_pairwise.mp (contig_chain_strong sp hsp l hh hc)

/-- C2: after the initial `_distribute_column` and any sequence of
re-stacks and accepted adjacent swaps, the column is contiguous
(`block[i].y_pos + block[i].height + spacing = block[i+1].y_pos` for
adjacent blocks), totally ordered by `y_pos`, and no two vertical intervals
overlap — given nonnegative block heights and positive spacing. -/
theorem C2_layout_nonoverlap (sp : ℚ) (col : List Cluster)
    (ops : List LayoutOp) (hsp : 0 < sp)
    (hh : ∀ c ∈ col, 0 ≤ c.height) :
    Contig sp (run_layout sp col ops) ∧
    List.Pairwise (fun a b => a.y_pos < b.y_pos) (run_layout sp col ops) ∧
    List.Pairwise (fun a b => a.y_pos + a.height < b.y_pos)
      (run_layout sp col ops) := by
  have key : ∀ (ops2 : List LayoutOp) (l : List Cluster),
      Contig sp l → (∀ c ∈ l, 0 ≤ c.height) →
      Contig sp (ops2.foldl (apply_op sp) l) ∧
        ∀ c ∈ ops2.foldl (apply_op sp) l, 0 ≤ c.height := by
    intro ops2
    induction ops2 with
    | nil => intro l h1 h2; exact ⟨h1, h2⟩
    | cons op ops2 ih =>
      intro l h1 h2
      simp only [List.foldl_cons]
      cases op with
      | restack =>
        exact ih (distribute_column sp l) (contig_distribute sp l)
          (hnn_distribute sp l h2)
      | swap i =>
        exact ih (swap_step sp l i) (contig_swap sp l i h1)
          (hnn_swap sp l i h2)
  have hrun := key ops (distribute_column sp col)
    (contig_distribute sp col) (hnn_distribute sp col hh)
  have hp := contig_pairwise_strong sp hsp _ hrun.2 hrun.1
  exact ⟨hrun.1, hp.imp (fun h => h.1.1), hp.imp (fun h => h.1.2)⟩

/-- Witness for C2 at a concrete input: two blocks of heights 2 and 1 with
spacing 1, followed by one accepted adjacent swap. -/
theorem C2_layout_nonoverlap_witness :
    Contig 1 (run_layout 1
      [{ x_pos := 0, width := 1, height := 2, y_pos := 0 },
       { x_pos := 0, width := 1, height := 1, y_pos := 0 }]
      [LayoutOp.swap 0]) ∧
    List.Pairwise (fun a b => a.y_pos < b.y_pos)
      (run_layout 1
        [{ x_pos := 0, width := 1, height := 2, y_pos := 0 },
         { x_pos := 0, width := 1, height := 1, y_pos := 0 }]
        [LayoutOp.swap 0]) ∧
    List.Pairwise (fun a b => a.y_pos + a.height < b.y_pos)
      (run_layout 1
        [{ x_pos := 0, width := 1, height := 2, y_pos := 0 },
         { x_pos := 0, width := 1, height := 1, y_pos := 0 }]
        [LayoutOp.swap 0]) :=
  C2_layout_nonoverlap 1
    [{ x_pos := 0, width := 1, height := 2, y_pos := 0 },
     { x_pos := 0, width := 1, height := 1, y_pos := 0 }]
    [LayoutOp.swap 0] (by norm_num)
    (by intro c hc
        rcases List.mem_cons.mp hc with rfl | hc2
        · norm_num
        · rcases List.mem_cons.mp hc2 with rfl | hc3
          · norm_num
          · simp at hc3)

/-! ### Centering lemmas -/

theorem stack_lb (sp : ℚ) (hsp : 0 ≤ sp) :
    ∀ (l : List Cluster) (d : ℚ), (∀ c ∈ l, 0 ≤ c.height) →
      ∀ x ∈ stack_clusters sp d l, d ≤ x.y_pos
  | [], _, _, x, hx => absurd hx (by simp [stack_clusters])
  | c :: cs, d, hh, x, hx => by
    simp only [stack_clusters, List.mem_cons] at hx
    rcases hx with rfl | hx
    · simp [Cluster.set_y_pos]
    · have hch : 0 ≤ c.height := hh c (List.mem_cons_self c cs)
      have ih := stack_lb sp hsp cs (d + c.height + sp)
        (fun g hg => hh g (List.mem_cons_of_mem c hg)) x hx
      linarith

theorem stack_ub (sp : ℚ) (hsp : 0 ≤ sp) :
    ∀ (l : List Cluster) (d : ℚ), (∀ c ∈ l, 0 ≤ c.height) →
      ∀ x ∈ stack_clusters sp d l, ∀ g,
        (stack_clusters sp d l).getLast? = some g →
        x.y_pos + x.height ≤ g.y_pos + g.height
  | [], _, _, x, hx => absurd hx (by simp [stack_clusters])
  | [c], d, hh, x, hx => by
    intro g hg
    simp only [stack_clusters] at hx hg
    rw [List.getLast?_singleton, Option.some.injEq] at hg
    rcases List.mem_singleton.mp hx with rfl
    rw [← hg]
  | c :: c2 :: cs, d, hh, x, hx => by
    intro g hg
    have hS : stack_clusters sp d (c :: c2 :: cs) =
        c.set_y_pos d ::
          stack_clusters sp (d + c.height + sp) (c2 :: cs) := rfl
    have hS2 : stack_clusters sp (d + c.height + sp) (c2 :: cs) =
        c2.set_y_pos (d + c.height + sp) ::
          stack_clusters sp
            ((d + c.height + sp) + c2.height + sp) cs := rfl
    rw [hS, hS2, List.getLast?_cons_cons, ← hS2] at hg
    rw [hS, List.mem_cons] at hx
    have hh2 : ∀ g2 ∈ c2 :: cs, 0 ≤ g2.height :=
      fun g2 hg2 => hh g2 (List.mem_cons_of_mem c hg2)
    rcases hx with rfl | hx
    · have hgmem : g ∈ stack_clusters sp (d + c.height + sp) (c2 :: cs) :=
        List.mem_of_mem_getLast? hg
      have hgy : d + c.height + sp ≤ g.y_pos :=
        stack_lb sp hsp (c2 :: cs) (d + c.height + sp) hh2 g hgmem
      have hgh : 0 ≤ g.height :=
        hnn_stack sp (c2 :: cs) (d + c.height + sp) hh2 g hgmem
      have hch : 0 ≤ c.height := hh c (List.mem_cons_self c _)
      simp only [Cluster.set_y_pos]
      linarith
    · exact stack_ub sp hsp (c2 :: cs) (d + c.height + sp) hh2 x hx g hg

theorem recenter_column_cons (c0 : Cluster) (rest : List Cluster) :
    recenter_column (c0 :: rest) =
      (c0 :: rest).map (fun c => c.set_y_pos (c.y_pos -
        (c0.y_pos +
          (((c0 :: rest).getLast (List.cons_ne_nil c0 rest)).y_pos +
            ((c0 :: rest).getLast (List.cons_ne_nil c0 rest)).height -
            c0.y_pos) / 2))) := rfl

/-- C9: immediately after the initial stacking and re-centering of a
non-empty column (`_distribute_column`), the column's vertical span is
symmetric about 0 — there are extents `lo` (achieved as some block's bottom)
and `hi` (achieved as some block's top) bounding all blocks with
`lo + hi = 0` — and a column with exactly one block of height `h` places
that block at `y_pos = -h/2` regardless of the spacing constant. -/
theorem C9_column_centered (sp : ℚ) (col : List Cluster) (hne : col ≠ [])
    (hh : ∀ c ∈ col, 0 ≤ c.height) (hsp : 0 ≤ sp) :
    (∃ lo hi, lo + hi = 0 ∧
      (∀ c ∈ distribute_column sp col,
        lo ≤ c.y_pos ∧ c.y_pos + c.height ≤ hi) ∧
      (∃ c ∈ distribute_column sp col, c.y_pos = lo) ∧
      (∃ c ∈ distribute_column sp col, c.y_pos + c.height = hi)) ∧
    (∀ (sp2 : ℚ) (c : Cluster), distribute_column sp2 [c] =
      [{ c with y_pos := -(c.height / 2) }]) := by
  constructor
  · cases col with
    | nil => exact absurd rfl hne
    | cons a as =>
      have hdc : distribute_column sp (a :: as) =
          recenter_column (a.set_y_pos 0 ::
            stack_clusters sp (0 + a.height + sp) as) := rfl
      rw [hdc, recenter_column_cons]
      set rest := stack_clusters sp (0 + a.height + sp) as with hrest
      set c0 := a.set_y_pos 0 with hc0
      set lastc := (c0 :: rest).getLast (List.cons_ne_nil c0 rest)
        with hlastc
      set cent := c0.y_pos +
        (lastc.y_pos + lastc.height - c0.y_pos) / 2 with hcent
      have hc0y : c0.y_pos = 0 := rfl
      have hlb : ∀ x ∈ c0 :: rest, 0 ≤ x.y_pos :=
        stack_lb sp hsp (a :: as) 0 hh
      have hub : ∀ x ∈ c0 :: rest,
          x.y_pos + x.height ≤ lastc.y_pos + lastc.height :=
        fun x hx => stack_ub sp hsp (a :: as) 0 hh x hx lastc
          (List.getLast?_eq_getLast _ _)
      have hlastmem : lastc ∈ c0 :: rest :=
        List.getLast_mem (List.cons_ne_nil c0 rest)
      refine ⟨-cent, lastc.y_pos + lastc.height - cent, ?_, ?_, ?_, ?_⟩
      · rw [hcent, hc0y]
        ring
      · intro c hc
        obtain ⟨x, hx, rfl⟩ := List.mem_map.mp hc
        have h1 := hlb x hx
        have h2 := hub x hx
        simp only [Cluster.set_y_pos]
        constructor <;> linarith
      · refine ⟨c0.set_y_pos (c0.y_pos - cent),
          List.mem_map.mpr ⟨c0, List.mem_cons_self c0 rest, rfl⟩, ?_⟩
        simp only [Cluster.set_y_pos]
        rw [hc0y]
        ring
      · refine ⟨lastc.set_y_pos (lastc.y_pos - cent),
          List.mem_map.mpr ⟨lastc, hlastmem, rfl⟩, ?_⟩
        simp only [Cluster.set_y_pos]
        ring
  · intro sp2 c
    show recenter_column (stack_clusters sp2 0 [c]) = _
    simp only [stack_clusters, recenter_column_cons, List.map_cons,
      List.map_nil, List.getLast_singleton, Cluster.set_y_pos]
    simp only [List.cons.injEq, and_true, Cluster.mk.injEq]
    refine ⟨by trivial, by trivial, by trivial, by ring⟩

/-- Witness for C9 at a concrete input: a single column with one block of
height 2 and spacing 1. -/
theorem C9_column_centered_witness :
    ∃ lo hi, lo + hi = 0 ∧
      (∀ c ∈ distribute_column 1
          [{ x_pos := 0, width := 1, height := 2, y_pos := 0 }],
        lo ≤ c.y_pos ∧ c.y_pos + c.height ≤ hi) ∧
      (∃ c ∈ distribute_column 1
          [{ x_pos := 0, width := 1, height := 2, y_pos := 0 }],
        c.y_pos = lo) ∧
      (∃ c ∈ distribute_column 1
          [{ x_pos := 0, width := 1, height := 2, y_pos := 0 }],
        c.y_pos + c.height = hi) :=
  (C9_column_centered 1
    [{ x_pos := 0, width := 1, height := 2, y_pos := 0 }]
    (by simp)
    (by intro c hc
        rcases List.mem_singleton.mp hc with rfl
        norm_num)
    (by norm_num)).1

/-! ### Relaxation-loop pass-count lemmas -/

theorem redistribute_count_le (sp : ℚ) :
    ∀ (n : ℕ) (flag : Bool) (om : List ℚ) (col : List ColEntry),
      (redistribute_loop sp n flag om col).2 ≤ n
  | 0, _, _, _ => le_refl 0
  | n + 1, flag, om, col => by
    simp only [redistribute_loop]
    split
    · exact Nat.succ_le_succ (redistribute_count_le sp n _ _ _)
    · exact Nat.succ_le_succ (Nat.zero_le n)

/-- C6: the relaxation loop of `distribute_clusters` executes at most the
configured budget (`_redistribute_vertically`, default 4) passes, and when
no block of the column has positive summed incoming-flux weight (the
condition under which a pass repositions a block and sets the
`_redistribute` flag — a condition independent of positions, hence the same
in every pass), the loop breaks after the first pass. -/
theorem C6_relaxation_budget (sp : ℚ) (budget : ℕ) (col : List ColEntry) :
    (distribute_clusters_relax sp budget col).2 ≤ budget ∧
    (any_positive col = false →
      (distribute_clusters_relax sp budget col).2 ≤ 1) := by
  constructor
  · exact redistribute_count_le sp budget false _ col
  · intro hneg
    cases budget with
    | zero =>
      simp [distribute_clusters_relax, redistribute_loop]
    | succ n =>
      simp [distribute_clusters_relax, redistribute_loop, hneg]

/-- Witness for C6 at a concrete input: one block with no incoming fluxes,
the default budget 4; the loop stops after a single pass. -/
theorem C6_relaxation_budget_witness :
    (distribute_clusters_relax 1 4
      [({ x_pos := 0, width := 1, height := 1, y_pos := 0 }, [])]).2 ≤ 1 :=
  (C6_relaxation_budget 1 4
    [({ x_pos := 0, width := 1, height := 1, y_pos := 0 }, [])]).2
    (by norm_num [any_positive, in_weight_pos])

end PyAlluv
